import Mathlib

/-!
Verification development for the kataras/versioning repository: a
request-version resolution and dispatch layer for HTTP APIs.
Go strings are embedded as lists of characters, Go maps as association
lists with insertion-ordered iteration, handlers as an inductive type
with an observable event semantics, and the external hashicorp/go-version
capability is modelled from the specification.
-/

namespace Versioning

/-- Go strings are embedded as lists of characters. -/
abbrev GoStr := List Char

/-- Shorthand converting a Lean string literal to the embedded type. -/
def gs (s : String) : GoStr := s.toList

/-- Embedding of Go `strings.Index` helper: whether `pat` is a leading
segment of `s` (Go `strings.HasPrefix`). -/
def leadsWith : GoStr → GoStr → Bool
  | _, [] => true
  | [], _ :: _ => false
  | a :: as, b :: bs => a == b && leadsWith as bs

/-- Embedding of Go `strings.Index(s, pat)`: index of the first occurrence
of `pat` in `s`, `none` when absent (Go returns -1). -/
def strIndex : GoStr → GoStr → Option Nat
  | [], pat => if leadsWith [] pat then some 0 else none
  | a :: t, pat =>
    if leadsWith (a :: t) pat then some 0
    else (strIndex t pat).map (· + 1)

/-- Embedding of Go `strings.Index(s, string(c))` for a one-character
pattern: index of the first occurrence of character `c`. -/
def charIndex (c : Char) : GoStr → Option Nat
  | [] => none
  | a :: t => if a == c then some 0 else (charIndex c t).map (· + 1)

/-- The context key string `"api.version"` from version.go. -/
def contextKey : GoStr := gs "api.version"

/-- The NotFound sentinel from version.go: `contextKey + ".notfound"`. -/
def NotFound : GoStr := contextKey ++ gs ".notfound"

/-- The Accept header search term `"version"` from version.go. -/
def AcceptHeaderVersionValue : GoStr := gs "version"

/-- A value stored under the context key: Go `interface{}` restricted to
the cases version.go distinguishes, a string or any non-string value
(the type assertion `v.(string)` fails on the latter). -/
inductive CtxVal where
  | str (s : GoStr)
  | nonString
deriving DecidableEq

/-- Embedding of the Go type assertion in GetVersion: the context value,
when present and a string, yields that string. -/
def ctxString : Option CtxVal → Option GoStr
  | some (.str s) => some s
  | _ => none

/-- An HTTP request as GetVersion observes it: the context value under the
version key, and the results of `Header.Get` for "Accept-Version" and
"Accept" (Go returns the empty string for a missing header). -/
structure Request where
  ctxVersion : Option CtxVal
  acceptVersionHeader : GoStr
  acceptHeader : GoStr
deriving DecidableEq

/-- Embedding of the Accept-header block of GetVersion (version.go lines
69-92) together with the final `return NotFound`: locate `"version"`,
find the first `=` at or after it, and take the value up to the first
space, else the first semicolon, else end of string; empty value or a
missing `=` yields the sentinel. -/
def acceptExtract (acceptValue : GoStr) : GoStr :=
  if acceptValue = [] then NotFound
  else
    match strIndex acceptValue AcceptHeaderVersionValue with
    | none => NotFound
    | some idx =>
      let rem := acceptValue.drop idx
      match charIndex '=' rem with
      | none => NotFound
      | some startVersion =>
        if rem.length < startVersion + 1 then NotFound
        else
          let rem2 := rem.drop (startVersion + 1)
          let e :=
            match charIndex ' ' rem2 with
            | some e1 => e1
            | none =>
              match charIndex ';' rem2 with
              | some e2 => e2
              | none => rem2.length
          if rem2.take e ≠ [] then rem2.take e else NotFound

/-- Embedding of GetVersion (version.go): first the context-store string
value, then a non-empty "Accept-Version" header, then the "Accept"
header scan, finally the NotFound sentinel. -/
def GetVersion (r : Request) : GoStr :=
  match ctxString r.ctxVersion with
  | some version => version
  | none =>
    if r.acceptVersionHeader ≠ [] then r.acceptVersionHeader
    else acceptExtract r.acceptHeader

/-- Embedding of Go `context.WithValue(ctx, contextKey, version)` from
version.go: attaching a string override to the request. -/
def WithVersion (r : Request) (version : GoStr) : Request :=
  { r with ctxVersion := some (.str version) }

/-- Splits a character list on a separator character, Go `strings.Split`. -/
def splitOnChar (c : Char) : GoStr → List GoStr
  | [] => [[]]
  | a :: as =>
    let r := splitOnChar c as
    if a == c then [] :: r
    else
      match r with
      | [] => [[a]]
      | b :: bs => (a :: b) :: bs

/-- Trims leading and trailing spaces, Go `strings.TrimSpace` restricted
to the space character. -/
def trimSp (l : GoStr) : GoStr :=
  ((l.dropWhile (· == ' ')).reverse.dropWhile (· == ' ')).reverse

/-- Parses a run of decimal digits into a number; `none` when the list is
empty or holds a non-digit. -/
def parseNatChars (l : GoStr) : Option Nat :=
  match l with
  | [] => none
  | _ :: _ =>
    l.foldl
      (fun acc c =>
        match acc with
        | none => none
        | some n => if c.isDigit then some (n * 10 + (c.toNat - 48)) else none)
      (some 0)

/-- Modelled from the spec: the comparable Version value of the external
semantic-version capability (hashicorp/go-version, not part of this
repository's sources): dot-separated numeric segments, keeping the
original string whose canonical form the advertisement header carries. -/
structure Version where
  segments : List Nat
  original : GoStr
deriving DecidableEq

/-- Modelled from the spec: "parse version string → comparable version"
of the external capability; a version string is one or more dot-separated
numeric segments, anything else fails to parse. -/
def NewVersion (s : GoStr) : Option Version :=
  match (splitOnChar '.' s).mapM parseNatChars with
  | some segs => some ⟨segs, s⟩
  | none => none

/-- Modelled from the spec: the canonical string form of a resolved
version, carried by the advertisement header (the spec maps version
"1.0" to header value "1.0"). -/
def verString (v : Version) : GoStr := v.original

/-- Whether every segment of a list is zero. -/
def allZero (l : List Nat) : Bool := l.all (· = 0)

/-- Segment-wise comparison of two version segment lists, missing
segments treated as zero. -/
def cmpSegs : List Nat → List Nat → Ordering
  | [], bs => if allZero bs then .eq else .lt
  | a :: as, [] => if allZero (a :: as) then .eq else .gt
  | a :: as, b :: bs =>
    if a < b then .lt else if b < a then .gt else cmpSegs as bs

/-- Comparison operator of a single constraint in a range expression. -/
inductive COp where
  | eq | neq | gt | lt | ge | le
deriving DecidableEq

/-- Modelled from the spec: one member of a parsed range-constraint
expression, an operator applied to a version. -/
structure Constraint where
  op : COp
  ver : Version
deriving DecidableEq

/-- Modelled from the spec: a parsed range expression such as
">= 1, < 3" is a conjunction of operator-version constraints. -/
def Constraints := List Constraint
deriving instance DecidableEq for Constraints

/-- Reads an optional comparison operator from the head of a trimmed
constraint part; a missing operator means equality. -/
def parseOp : GoStr → COp × GoStr
  | '>' :: '=' :: rest => (.ge, rest)
  | '<' :: '=' :: rest => (.le, rest)
  | '!' :: '=' :: rest => (.neq, rest)
  | '>' :: rest => (.gt, rest)
  | '<' :: rest => (.lt, rest)
  | '=' :: rest => (.eq, rest)
  | l => (.eq, l)

/-- Parses one comma-separated part of a constraint expression. -/
def parseOneConstraint (l : GoStr) : Option Constraint :=
  let t := trimSp l
  let (op, rest) := parseOp t
  match NewVersion (trimSp rest) with
  | some v => some ⟨op, v⟩
  | none => none

/-- Modelled from the spec: "parse constraint string → predicate over
versions" of the external capability; a parse failure on any part fails
the whole expression. -/
def NewConstraint (s : GoStr) : Option Constraints :=
  (splitOnChar ',' s).mapM parseOneConstraint

/-- Evaluates one constraint at a version. -/
def checkOne (c : Constraint) (v : Version) : Bool :=
  match c.op, cmpSegs v.segments c.ver.segments with
  | .eq, .eq => true
  | .eq, _ => false
  | .neq, .eq => false
  | .neq, _ => true
  | .gt, .gt => true
  | .gt, _ => false
  | .lt, .lt => true
  | .lt, _ => false
  | .ge, .lt => false
  | .ge, _ => true
  | .le, .gt => false
  | .le, _ => true

/-- Modelled from the spec: the membership predicate of a parsed
constraint expression — every part must hold (go-version
`Constraints.Check`). -/
def constraintsCheck (cs : Constraints) (v : Version) : Bool :=
  cs.all (checkOne · v)

/-- Embedding of `If` (versioning.go): reports whether version string `v`
matches constraint expression `is`; any parse failure yields false. -/
def If (v : GoStr) (is : GoStr) : Bool :=
  match NewVersion v with
  | none => false
  | some ver =>
    match NewConstraint is with
    | none => false
    | some constraints => constraintsCheck constraints ver

/-- Embedding of `Match` (versioning.go): whether the request's resolved
version matches the expected constraint expression. -/
def Match (r : Request) (expectedVersion : GoStr) : Bool :=
  If (GetVersion r) expectedVersion

/-- Embedding of Go `time.Time` for deprecation dates: a number whose
zero value is the Go zero time (`IsZero`). -/
abbrev GoTime := Nat

/-- Modelled from the spec: the fixed documented timestamp rendering of a
deprecation date (the claims only depend on whether the header is
emitted, not on the exact text). -/
def formatDate (t : GoTime) : GoStr := Nat.toDigits 10 t

/-- Embedding of DeprecationOptions (deprecation.go): the three
deprecation header values. -/
structure DeprecationOptions where
  WarnMessage : GoStr
  DeprecationDate : GoTime
  DeprecationInfo : GoStr
deriving DecidableEq

/-- Embedding of `DeprecationOptions.ShouldHandle` (deprecation.go):
whether the deprecation headers should be present. -/
def ShouldHandle (opts : DeprecationOptions) : Bool :=
  opts.WarnMessage ≠ [] || opts.DeprecationDate ≠ 0 || opts.DeprecationInfo ≠ []

/-- Embedding of `DefaultDeprecationOptions` (deprecation.go). -/
def DefaultDeprecationOptions : DeprecationOptions :=
  ⟨gs "WARNING! You are using a deprecated version of this API.", 0, []⟩

/-- The Go zero value of DeprecationOptions, the state of a fresh Group. -/
def zeroDeprecationOptions : DeprecationOptions := ⟨[], 0, []⟩

/-- An `http.Handler` value as the core observes it: an opaque
user-supplied handler identified by a number, the package-level default
NotFoundHandler, a handler produced by the Deprecated wrapper (carrying
the options after warn-message defaulting), or the Go nil handler. -/
inductive Handler where
  | base (id : Nat)
  | notFoundDefault
  | deprecated (opts : DeprecationOptions) (inner : Handler)
  | nilh
deriving DecidableEq

/-- Embedding of `Deprecated` (deprecation.go): defaults an empty warn
message, then wraps the handler so that it emits the deprecation headers
before delegating. -/
def Deprecated (handler : Handler) (options : DeprecationOptions) : Handler :=
  let opts :=
    if options.WarnMessage = [] then
      { options with WarnMessage := DefaultDeprecationOptions.WarnMessage }
    else options
  .deprecated opts handler

/-- An observable response-side event: a header write, a status write, a
body write, or the invocation of an opaque user handler body. -/
inductive HEvent where
  | setHeader (key value : GoStr)
  | writeStatus (code : Nat)
  | writeBody (text : GoStr)
  | invoke (h : Handler)
deriving DecidableEq

/-- Observable behavior of serving a handler: the default not-found
handler writes status 501 and the fixed body (version.go NotFoundHandler);
a Deprecated wrapper sets the warn header, the date header only when the
date is non-zero, the info header only when non-empty, then runs the
wrapped handler; an opaque handler records its own invocation; the nil
handler has no modelled behavior. -/
def runHandler : Handler → List HEvent
  | .base id => [.invoke (.base id)]
  | .notFoundDefault => [.writeStatus 501, .writeBody (gs "version not found")]
  | .deprecated opts inner =>
    [.setHeader (gs "X-API-Warn") opts.WarnMessage]
      ++ (if opts.DeprecationDate ≠ 0 then
            [.setHeader (gs "X-API-Deprecation-Date") (formatDate opts.DeprecationDate)]
          else [])
      ++ (if opts.DeprecationInfo ≠ [] then
            [.setHeader (gs "X-API-Deprecation-Info") opts.DeprecationInfo]
          else [])
      ++ runHandler inner
  | .nilh => []

/-- Association-list lookup, embedding a Go map read `m[k]` (`none` for a
missing key). -/
def assocGet {α : Type} : List (GoStr × α) → GoStr → Option α
  | [], _ => none
  | (k, v) :: rest, key => if k = key then some v else assocGet rest key

/-- Association-list write, embedding a Go map write `m[k] = x`:
overwrite in place when the key exists, append otherwise. -/
def assocSet {α : Type} : List (GoStr × α) → GoStr → α → List (GoStr × α)
  | [], key, x => [(key, x)]
  | (k, v) :: rest, key, x =>
    if k = key then (key, x) :: rest else (k, v) :: assocSet rest key x

/-- Embedding of the `Map` type (versioning.go): version or constraint
expression to handler, as an association list with a fixed iteration
order. -/
abbrev GoMap := List (GoStr × Handler)

/-- Embedding of the `constraintsHandler` pair (versioning.go). -/
structure ConstraintsHandler where
  constraints : Constraints
  handler : Handler
deriving DecidableEq

/-- Worker of buildConstraints: walks the map entries, accumulating
parsed constraint handlers and the latest sentinel entry; a constraint
parse failure is the Go `panic(err)`, embedded as an error carrying the
offending key. -/
def bcAux : List (GoStr × Handler) → List ConstraintsHandler → Option Handler →
    Except GoStr (List ConstraintsHandler × Option Handler)
  | [], chs, nf => .ok (chs, nf)
  | (v, h) :: rest, chs, nf =>
    if v = NotFound then bcAux rest chs (some h)
    else
      match NewConstraint v with
      | none => .error v
      | some constraints => bcAux rest (chs ++ [⟨constraints, h⟩]) nf

/-- Embedding of buildConstraints (versioning.go): parse every
non-sentinel key, panic on a parse failure, and default the not-found
handler to the package NotFoundHandler when no sentinel entry exists. -/
def buildConstraints (versionsHandler : List (GoStr × Handler)) :
    Except GoStr (List ConstraintsHandler × Handler) :=
  (bcAux versionsHandler [] none).map
    (fun p => (p.1, p.2.getD .notFoundDefault))

/-- First stored pair whose constraints are satisfied by the version, in
the fixed per-build order. -/
def firstMatch (ver : Version) : List ConstraintsHandler → Option ConstraintsHandler
  | [] => none
  | ch :: rest =>
    if constraintsCheck ch.constraints ver then some ch else firstMatch ver rest

/-- Embedding of the request-time closure of NewMatcher (versioning.go):
the dispatch-level event trace of one request — the advertisement header
write and exactly one handler invocation. -/
def matcherServe (chs : List ConstraintsHandler) (nf : Handler) (r : Request) :
    List HEvent :=
  let versionString := GetVersion r
  if versionString = NotFound then [.invoke nf]
  else
    match NewVersion versionString with
    | none => [.invoke nf]
    | some ver =>
      match firstMatch ver chs with
      | some ch =>
        [.setHeader (gs "X-API-Version") (verString ver), .invoke ch.handler]
      | none => [.invoke nf]

/-- Embedding of NewMatcher (versioning.go): build the constraints at
construction time (propagating the build-time panic), returning the
per-request dispatch function. -/
def NewMatcher (versions : List (GoStr × Handler)) :
    Except GoStr (Request → List HEvent) :=
  (buildConstraints versions).map (fun p => matcherServe p.1 p.2)

/-- Whether an event is a handler invocation. -/
def isInvokeEv : HEvent → Bool
  | .invoke _ => true
  | _ => false

/-- Embedding of Group (group.go): a version label, the path to
per-version map of routes, and the stored deprecation options. Within a
single group no aliasing between its own maps arises, so the maps are
embedded as values here; RegisterGroups, whose behavior depends on Go
map reference semantics, is embedded separately below with an explicit
heap. -/
structure Group where
  version : GoStr
  routes : List (GoStr × GoMap)
  deprecation : DeprecationOptions
deriving DecidableEq

/-- Embedding of NewGroup (group.go): empty routes, zero-value
deprecation options. -/
def NewGroup (version : GoStr) : Group :=
  ⟨version, [], zeroDeprecationOptions⟩

/-- Embedding of `Group.Deprecated` (group.go): wrap the handler stored
under the group's own version label in every registered route map (a
missing entry is the Go nil handler), then store the options for
subsequent Handle calls. -/
def groupDeprecated (g : Group) (options : DeprecationOptions) : Group :=
  { g with
    routes := g.routes.map
      (fun pr =>
        (pr.1,
         assocSet pr.2 g.version
           (Deprecated ((assocGet pr.2 g.version).getD .nilh) options))),
    deprecation := options }

/-- Embedding of `Group.addVRoute` (group.go): register the handler under
a fresh path, and silently do nothing when the path already exists. -/
def addVRoute (g : Group) (path : GoStr) (handler : Handler) : Group :=
  match assocGet g.routes path with
  | some _ => g
  | none =>
    { g with routes := g.routes ++ [(path, [(g.version, handler)])] }

/-- Embedding of `Group.Handle` (group.go): pre-wrap the handler when
Deprecated was called first, then add the route. -/
def groupHandle (g : Group) (path : GoStr) (handler : Handler) : Group :=
  if ShouldHandle g.deprecation then
    addVRoute g path (Deprecated handler g.deprecation)
  else
    addVRoute g path handler

/-- A heap of Go map values, making map reference semantics explicit for
RegisterGroups: a reference is an index into the heap. -/
abbrev Heap := List GoMap

/-- Reads the map behind a reference. -/
def heapGet (hp : Heap) (r : Nat) : GoMap := hp.getD r []

/-- Overwrites the map behind a reference. -/
def heapSet (hp : Heap) (r : Nat) (m : GoMap) : Heap := hp.set r m

/-- A Group as RegisterGroups reads it, with its per-path version maps as
heap references (Go maps are reference values). -/
structure GroupH where
  version : GoStr
  routes : List (GoStr × Nat)
deriving DecidableEq

/-- One step of the merge loop of RegisterGroups (group.go): for a path
already collected, write this group's label entry into the collected —
aliased — map (reading this group's own entry, the Go nil handler when
absent); otherwise alias this group's map reference into the total. -/
def mergeStep (v : GoStr) (st : Heap × List (GoStr × Nat)) (entry : GoStr × Nat) :
    Heap × List (GoStr × Nat) :=
  match assocGet st.2 entry.1 with
  | some tref =>
    (heapSet st.1 tref
       (assocSet (heapGet st.1 tref) v
          ((assocGet (heapGet st.1 entry.2) v).getD .nilh)),
     st.2)
  | none => (st.1, st.2 ++ [(entry.1, entry.2)])

/-- The first loop of RegisterGroups (group.go): fold the groups in
argument order into the total path-to-map-reference collection, mutating
aliased maps in the heap. -/
def mergeGroups (groups : List GroupH) (hp : Heap) : Heap × List (GoStr × Nat) :=
  groups.foldl (fun st g => g.routes.foldl (mergeStep g.version) st) (hp, [])

/-- The second loop of RegisterGroups (group.go): for every collected
path, insert the fallback under the NotFound sentinel into the (aliased)
map when a fallback was supplied, then build the matcher from that map;
a matcher build failure is the Go panic, stopping the loop with the heap
mutations made so far. -/
def registerPaths (nfh : Option Handler) :
    List (GoStr × Nat) → Heap →
    List (GoStr × (List ConstraintsHandler × Handler)) →
    Heap × Except GoStr (List (GoStr × (List ConstraintsHandler × Handler)))
  | [], hp, acc => (hp, .ok acc)
  | (path, tref) :: rest, hp, acc =>
    let hp1 :=
      match nfh with
      | some f => heapSet hp tref (assocSet (heapGet hp tref) NotFound f)
      | none => hp
    match buildConstraints (heapGet hp1 tref) with
    | .error e => (hp1, .error e)
    | .ok m => registerPaths nfh rest hp1 (acc ++ [(path, m)])

/-- Embedding of RegisterGroups (group.go) over the explicit heap: merge
the groups, then register a matcher per path, returning the final heap
and the path-to-matcher routes. -/
def RegisterGroups (nfh : Option Handler) (groups : List GroupH) (hp : Heap) :
    Heap × Except GoStr (List (GoStr × (List ConstraintsHandler × Handler))) :=
  let merged := mergeGroups groups hp
  registerPaths nfh merged.2 merged.1 []

/-- Specification-worded description of the Accept-header value
extraction, for comparison with the source-derived acceptExtract: the
value is everything after the "=" following the "version" occurrence,
running until the first space, or, if no space exists, the first
semicolon, or, if neither exists, the end of the string; a missing "="
or an empty value yields the NotFound sentinel. The argument is the
portion of the Accept header from the "version" occurrence on. -/
def specAcceptValue (rem : GoStr) : GoStr :=
  if '=' ∈ rem then
    let afterEq := (rem.dropWhile (fun a => !(a == '='))).tail
    let value :=
      if ' ' ∈ afterEq then afterEq.takeWhile (fun a => !(a == ' '))
      else if ';' ∈ afterEq then afterEq.takeWhile (fun a => !(a == ';'))
      else afterEq
    if value = [] then NotFound else value
  else NotFound

/-! Helper lemmas. -/

lemma charIndex_eq_none {c : Char} {l : GoStr} :
    charIndex c l = none ↔ c ∉ l := by
  induction l with
  | nil => simp [charIndex]
  | cons a t ih =>
    by_cases h : a = c
    · simp [charIndex, h]
    · have hb : (a == c) = false := by simpa using h
      simp [charIndex, hb, ih, h, Ne.symm h]

lemma charIndex_spec {c : Char} {l : GoStr} {k : Nat}
    (h : charIndex c l = some k) :
    k < l.length ∧ l.take k = l.takeWhile (fun a => !(a == c)) ∧
      l.drop (k + 1) = (l.dropWhile (fun a => !(a == c))).tail := by
  induction l generalizing k with
  | nil => simp [charIndex] at h
  | cons a t ih =>
    by_cases hc : a = c
    · have hb : (a == c) = true := by simpa using hc
      simp [charIndex, hb] at h
      subst h
      simp [List.takeWhile_cons, List.dropWhile_cons, hb]
    · have hb : (a == c) = false := by simpa using hc
      simp only [charIndex, hb, Bool.false_eq_true, if_false] at h
      cases hk : charIndex c t with
      | none => rw [hk] at h; simp at h
      | some k' =>
        rw [hk] at h
        simp only [Option.map_some'] at h
        obtain rfl : k' + 1 = k := by simpa using h
        obtain ⟨hlt, htake, hdrop⟩ := ih hk
        refine ⟨by simpa using Nat.succ_lt_succ hlt, ?_, ?_⟩
        · simp [List.take_succ_cons, List.takeWhile_cons, hb, htake]
        · simp [List.drop_succ_cons, List.dropWhile_cons, hb, hdrop]

/-! Claim theorems. -/

/-- C3: GetVersion consults sources in the fixed order request-context
override, Accept-Version header, Accept header token, NotFound sentinel,
and the first hit wins: an attached string override is returned verbatim
— even when empty, which is not escalated to the header sources — and
takes precedence over both headers; the Accept-Version header value is
returned verbatim exactly when no string override is attached and it is
non-empty; otherwise the Accept header extraction (whose empty-header
and no-token cases yield the sentinel) decides. -/
theorem getVersion_resolution_order (r : Request) :
    (∀ s, r.ctxVersion = some (.str s) → GetVersion r = s)
    ∧ (ctxString r.ctxVersion = none → r.acceptVersionHeader ≠ [] →
        GetVersion r = r.acceptVersionHeader)
    ∧ (ctxString r.ctxVersion = none → r.acceptVersionHeader = [] →
        GetVersion r = acceptExtract r.acceptHeader) := by
  refine ⟨?_, ?_, ?_⟩
  · intro s hs
    simp [GetVersion, hs, ctxString]
  · intro hc hv
    simp [GetVersion, hc, hv]
  · intro hc hv
    simp [GetVersion, hc, hv]

/-- Witness for C3: an empty-string override wins over both headers; the
Accept-Version header wins over Accept; with both headers exhausted the
Accept extraction (here: no Accept header at all) yields the sentinel. -/
theorem getVersion_resolution_order_witness :
    GetVersion ⟨some (.str []), gs "1.0", gs "version=3"⟩ = []
    ∧ GetVersion ⟨none, gs "1.0", gs "version=3"⟩ = gs "1.0"
    ∧ GetVersion ⟨none, [], []⟩ = NotFound :=
  ⟨(getVersion_resolution_order ⟨some (.str []), gs "1.0", gs "version=3"⟩).1 [] rfl,
   (getVersion_resolution_order ⟨none, gs "1.0", gs "version=3"⟩).2.1 rfl (by decide),
   by
     have := (getVersion_resolution_order ⟨none, [], []⟩).2.2 rfl rfl
     simpa [acceptExtract] using this⟩

/-- C5: `If` is total and never propagates an error: it is false whenever
the version or the constraint fails to parse, and otherwise equals the
parsed constraint's membership predicate at the parsed version. -/
theorem if_total_never_errors (v c : GoStr) :
    ((NewVersion v = none ∨ NewConstraint c = none) → If v c = false)
    ∧ (∀ ver constraints, NewVersion v = some ver →
        NewConstraint c = some constraints →
        If v c = constraintsCheck constraints ver) := by
  constructor
  · rintro (h | h)
    · simp [If, h]
    · cases hv : NewVersion v <;> simp [If, hv, h]
  · intro ver constraints h1 h2
    simp [If, h1, h2]

/-- Witness for C5: an unparsable version and an unparsable constraint
each force false; a parsed pair evaluates the membership predicate. -/
theorem if_total_never_errors_witness :
    If (gs "abc") (gs ">= 1") = false
    ∧ If (gs "1.0") (gs "not a constraint") = false
    ∧ If (gs "2.5") (gs ">= 2, < 3") =
        constraintsCheck [⟨.ge, ⟨[2], gs "2"⟩⟩, ⟨.lt, ⟨[3], gs "3"⟩⟩] ⟨[2, 5], gs "2.5"⟩ :=
  ⟨(if_total_never_errors (gs "abc") (gs ">= 1")).1 (.inl (by decide)),
   (if_total_never_errors (gs "1.0") (gs "not a constraint")).1 (.inr (by decide)),
   (if_total_never_errors (gs "2.5") (gs ">= 2, < 3")).2 _ _ (by decide) (by decide)⟩

lemma assocGet_append_none {α : Type} (l : List (GoStr × α)) (p : GoStr) (x : α)
    (h : assocGet l p = none) : assocGet (l ++ [(p, x)]) p = some x := by
  induction l with
  | nil => simp [assocGet]
  | cons kv rest ih =>
    obtain ⟨k, v⟩ := kv
    by_cases hk : k = p
    · simp [assocGet, hk] at h
    · simp only [assocGet, hk, if_false] at h ⊢
      simp [assocGet, hk, ih h]

lemma addVRoute_mem (g : Group) (p : GoStr) (h : Handler) :
    ∃ m, assocGet (addVRoute g p h).routes p = some m := by
  unfold addVRoute
  cases hg : assocGet g.routes p with
  | some m => exact ⟨m, by simpa using hg⟩
  | none => exact ⟨_, by simpa using assocGet_append_none g.routes p _ hg⟩

lemma groupHandle_noop (g : Group) (p : GoStr) (h : Handler) (m : GoMap)
    (hm : assocGet g.routes p = some m) : groupHandle g p h = g := by
  unfold groupHandle
  split <;> simp [addVRoute, hm]

/-- C9: within a single group, a second Handle call for a path already
registered is a no-op: the group state is unchanged, so the first
registered handler is kept and the second silently discarded. -/
theorem handle_duplicate_path_noop (g : Group) (p : GoStr) (h1 h2 : Handler) :
    groupHandle (groupHandle g p h1) p h2 = groupHandle g p h1 := by
  have hmem : ∃ m, assocGet (groupHandle g p h1).routes p = some m := by
    unfold groupHandle
    split <;> exact addVRoute_mem ..
  obtain ⟨m, hm⟩ := hmem
  exact groupHandle_noop _ p h2 m hm

lemma bcAux_error (l : List (GoStr × Handler)) :
    ∀ acc nf (kh : GoStr × Handler), kh ∈ l → kh.1 ≠ NotFound →
      NewConstraint kh.1 = none → ∃ e, bcAux l acc nf = .error e := by
  induction l with
  | nil => intro acc nf kh hm; cases hm
  | cons a rest ih =>
    intro acc nf kh hm hne hc
    obtain ⟨v, h⟩ := a
    cases hm with
    | head =>
      refine ⟨v, ?_⟩
      simp only [bcAux, if_neg hne]
      rw [hc]
    | tail _ hm2 =>
      by_cases hv : v = NotFound
      · simpa [bcAux, hv] using ih acc (some h) kh hm2 hne hc
      · cases hc2 : NewConstraint v with
        | none => exact ⟨v, by simp [bcAux, hv, hc2]⟩
        | some cs => simpa [bcAux, hv, hc2] using ih (acc ++ [⟨cs, h⟩]) nf kh hm2 hne hc

lemma bcAux_ok (l : List (GoStr × Handler)) :
    ∀ acc nf res, bcAux l acc nf = .ok res →
      ∀ kh : GoStr × Handler, kh ∈ l → kh.1 ≠ NotFound →
        ∃ cs, NewConstraint kh.1 = some cs := by
  induction l with
  | nil => intro acc nf res _ kh hm; cases hm
  | cons a rest ih =>
    intro acc nf res hok kh hm hne
    obtain ⟨v, h⟩ := a
    cases hm with
    | head =>
      by_cases hv : v = NotFound
      · exact absurd hv hne
      · cases hc2 : NewConstraint v with
        | none => simp [bcAux, hv, hc2] at hok
        | some cs => exact ⟨cs, rfl⟩
    | tail _ hm2 =>
      by_cases hv : v = NotFound
      · simp only [bcAux, if_pos hv] at hok
        exact ih acc (some h) res hok kh hm2 hne
      · cases hc2 : NewConstraint v with
        | none => simp [bcAux, hv, hc2] at hok
        | some cs =>
          simp only [bcAux, if_neg hv, hc2] at hok
          exact ih (acc ++ [⟨cs, h⟩]) nf res hok kh hm2 hne

/-- C6: building a matcher from a map holding any non-sentinel key that
fails to parse as a constraint aborts construction with an unrecoverable
error, and a successful construction implies every non-sentinel key
parsed — no unparsed entry is ever dropped or deferred. -/
theorem buildConstraints_fatal_on_bad_key (versions : List (GoStr × Handler)) :
    ((∃ kh, kh ∈ versions ∧ kh.1 ≠ NotFound ∧ NewConstraint kh.1 = none) →
      ∃ e, buildConstraints versions = .error e)
    ∧ (∀ res, buildConstraints versions = .ok res →
        ∀ kh, kh ∈ versions → kh.1 ≠ NotFound →
          ∃ cs, NewConstraint kh.1 = some cs) := by
  constructor
  · rintro ⟨kh, hm, hne, hc⟩
    obtain ⟨e, he⟩ := bcAux_error versions [] none kh hm hne hc
    exact ⟨e, by simp [buildConstraints, he, Except.map]⟩
  · intro res hres kh hm hne
    cases hb : bcAux versions [] none with
    | error e => simp [buildConstraints, hb, Except.map] at hres
    | ok p => exact bcAux_ok versions [] none p hb kh hm hne

/-- Witness for C6: the key "abc" parses as no constraint, so building
from a map holding it fails, and the error case of the second clause is
exercised on a map that does build. -/
theorem buildConstraints_fatal_on_bad_key_witness :
    (∃ e, buildConstraints [(gs "abc", .base 1)] = .error e)
    ∧ (∃ cs, NewConstraint (gs "1.0") = some cs) :=
  ⟨(buildConstraints_fatal_on_bad_key [(gs "abc", .base 1)]).1
     ⟨(gs "abc", .base 1), by decide, by decide, by decide⟩,
   (buildConstraints_fatal_on_bad_key [(gs "1.0", .base 1)]).2
     ([⟨[⟨.eq, ⟨[1, 0], gs "1.0"⟩⟩], .base 1⟩], .notFoundDefault) (by rfl)
     (gs "1.0", .base 1) (by decide) (by decide)⟩

/-- C1: for every request served by a matcher built with NewMatcher —
whose build produced the constraint pairs `chs` and fallback `nf` — the
trace is exactly one fallback invocation when the extracted version is
the sentinel, fails to parse, or satisfies no stored constraint, and
exactly the advertisement header write followed by the invocation of the
first satisfied pair's handler otherwise; every trace holds exactly one
handler invocation, and a header write occurs only in the
successful-match case. -/
theorem newMatcher_dispatch (versions : List (GoStr × Handler))
    (chs : List ConstraintsHandler) (nf : Handler) (r : Request)
    (_hb : NewMatcher versions = .ok (matcherServe chs nf)) :
    ((GetVersion r = NotFound ∨ NewVersion (GetVersion r) = none ∨
        (∀ ver, NewVersion (GetVersion r) = some ver → firstMatch ver chs = none)) →
      matcherServe chs nf r = [.invoke nf])
    ∧ (∀ ver ch, GetVersion r ≠ NotFound → NewVersion (GetVersion r) = some ver →
        firstMatch ver chs = some ch →
        matcherServe chs nf r =
          [.setHeader (gs "X-API-Version") (verString ver), .invoke ch.handler])
    ∧ (matcherServe chs nf r).countP isInvokeEv = 1
    ∧ (∀ k x, HEvent.setHeader k x ∈ matcherServe chs nf r →
        GetVersion r ≠ NotFound ∧ ∃ ver ch, NewVersion (GetVersion r) = some ver ∧
          firstMatch ver chs = some ch) := by
  by_cases hnf : GetVersion r = NotFound
  · refine ⟨fun _ => by simp [matcherServe, hnf], ?_, ?_, ?_⟩
    · intro ver ch hne; exact absurd hnf hne
    · simp [matcherServe, hnf, List.countP, List.countP.go, isInvokeEv]
    · intro k x hmem
      simp [matcherServe, hnf] at hmem
  · cases hv : NewVersion (GetVersion r) with
    | none =>
      refine ⟨fun _ => by simp [matcherServe, hnf, hv], ?_, ?_, ?_⟩
      · intro ver ch _ hv2; cases hv2
      · simp [matcherServe, hnf, hv, List.countP, List.countP.go, isInvokeEv]
      · intro k x hmem
        simp [matcherServe, hnf, hv] at hmem
    | some ver =>
      cases hfm : firstMatch ver chs with
      | none =>
        refine ⟨fun _ => by simp [matcherServe, hnf, hv, hfm], ?_, ?_, ?_⟩
        · intro ver2 ch _ hv2 hfm2
          obtain rfl : ver = ver2 := by injection hv2
          rw [hfm] at hfm2; cases hfm2
        · simp [matcherServe, hnf, hv, hfm, List.countP, List.countP.go, isInvokeEv]
        · intro k x hmem
          simp [matcherServe, hnf, hv, hfm] at hmem
      | some ch =>
        refine ⟨?_, ?_, ?_, ?_⟩
        · rintro (h | h | h)
          · exact absurd h hnf
          · cases h
          · have := h ver rfl; rw [hfm] at this; cases this
        · intro ver2 ch2 _ hv2 hfm2
          obtain rfl : ver = ver2 := by injection hv2
          rw [hfm] at hfm2
          obtain rfl : ch = ch2 := by injection hfm2
          simp [matcherServe, hnf, hv, hfm]
        · simp [matcherServe, hnf, hv, hfm, List.countP, List.countP.go, isInvokeEv]
        · intro k x _
          exact ⟨hnf, ver, ch, rfl, hfm⟩

/-- Witness for C1: the matcher of the two-entry example map dispatches a
version-2.5 request to the second pair's handler with the advertisement
header, and its build hypothesis holds by computation. -/
theorem newMatcher_dispatch_witness :
    matcherServe
        [⟨[⟨.eq, ⟨[1, 0], gs "1.0"⟩⟩], .base 1⟩,
         ⟨[⟨.ge, ⟨[2], gs "2"⟩⟩, ⟨.lt, ⟨[3], gs "3"⟩⟩], .base 2⟩]
        .notFoundDefault ⟨none, gs "2.5", []⟩ =
      [.setHeader (gs "X-API-Version") (gs "2.5"), .invoke (.base 2)] :=
  (newMatcher_dispatch [(gs "1.0", .base 1), (gs ">= 2, < 3", .base 2)]
      [⟨[⟨.eq, ⟨[1, 0], gs "1.0"⟩⟩], .base 1⟩,
       ⟨[⟨.ge, ⟨[2], gs "2"⟩⟩, ⟨.lt, ⟨[3], gs "3"⟩⟩], .base 2⟩]
      .notFoundDefault ⟨none, gs "2.5", []⟩ rfl).2.1
    ⟨[2, 5], gs "2.5"⟩ ⟨[⟨.ge, ⟨[2], gs "2"⟩⟩, ⟨.lt, ⟨[3], gs "3"⟩⟩], .base 2⟩
    (by decide) (by decide) (by decide)

/-- C2: the matcher built from the two-entry map with no explicit
fallback dispatches version "1.0" to the first handler with the
advertisement header set to "1.0", version "2.5" to the second handler,
and version "3.0" to the default fallback, whose behavior is status 501
with body "version not found". -/
theorem matcher_example_dispatch :
    ∃ chs, buildConstraints [(gs "1.0", .base 1), (gs ">= 2, < 3", .base 2)] =
        .ok (chs, .notFoundDefault)
      ∧ matcherServe chs .notFoundDefault ⟨none, gs "1.0", []⟩ =
          [.setHeader (gs "X-API-Version") (gs "1.0"), .invoke (.base 1)]
      ∧ matcherServe chs .notFoundDefault ⟨none, gs "2.5", []⟩ =
          [.setHeader (gs "X-API-Version") (gs "2.5"), .invoke (.base 2)]
      ∧ matcherServe chs .notFoundDefault ⟨none, gs "3.0", []⟩ =
          [.invoke .notFoundDefault]
      ∧ runHandler .notFoundDefault =
          [.writeStatus 501, .writeBody (gs "version not found")] :=
  ⟨[⟨[⟨.eq, ⟨[1, 0], gs "1.0"⟩⟩], .base 1⟩,
    ⟨[⟨.ge, ⟨[2], gs "2"⟩⟩, ⟨.lt, ⟨[3], gs "3"⟩⟩], .base 2⟩],
   by rfl, by decide, by decide, by decide, by decide⟩

lemma assocGet_map_none {α β : Type} (f : GoStr × α → β) (l : List (GoStr × α))
    (p : GoStr) :
    assocGet (l.map (fun pr => (pr.1, f pr))) p = none ↔ assocGet l p = none := by
  induction l with
  | nil => simp [assocGet]
  | cons kv rest ih =>
    obtain ⟨k, v⟩ := kv
    by_cases hk : k = p
    · simp [assocGet, hk]
    · simp [assocGet, hk, ih]

lemma addVRoute_noop (g : Group) (p : GoStr) (h : Handler) (m : GoMap)
    (hm : assocGet g.routes p = some m) : addVRoute g p h = g := by
  simp [addVRoute, hm]

/-- Counterexample for C7: with the all-empty (inactive) deprecation
options value, the two call orderings on a fresh "1.0" group diverge —
Deprecated-then-Handle stores the bare handler (Handle does not wrap
when the stored options are inactive), while Handle-then-Deprecated
wraps it unconditionally, so the wrapped handler observably emits the
defaulted warn header that the other ordering's handler does not. -/
theorem group_deprecated_order_counterexample :
    groupHandle (groupDeprecated (NewGroup (gs "1.0")) ⟨[], 0, []⟩) (gs "/") (.base 0)
      ≠ groupDeprecated (groupHandle (NewGroup (gs "1.0")) (gs "/") (.base 0)) ⟨[], 0, []⟩
    ∧ (assocGet
        ((groupHandle (groupDeprecated (NewGroup (gs "1.0")) ⟨[], 0, []⟩)
          (gs "/") (.base 0)).routes) (gs "/")).getD []
        = [(gs "1.0", .base 0)]
    ∧ (assocGet
        ((groupDeprecated (groupHandle (NewGroup (gs "1.0")) (gs "/") (.base 0))
          ⟨[], 0, []⟩).routes) (gs "/")).getD []
        = [(gs "1.0", Deprecated (.base 0) ⟨[], 0, []⟩)]
    ∧ runHandler (Deprecated (.base 0) ⟨[], 0, []⟩) ≠ runHandler (.base 0) := by
  refine ⟨by decide, by decide, by decide, by decide⟩

/-- C7 (amended): for every group whose stored deprecation options are
inactive, every path, every handler, and every active deprecation
options value, the orderings Deprecated-before-Handle and
Handle-before-Deprecated produce identical group states, so every
handler registered around the single Deprecated call carries the
deprecation headers. -/
theorem group_deprecated_order_commutes (g : Group) (p : GoStr) (h : Handler)
    (opts : DeprecationOptions) (hg : ShouldHandle g.deprecation = false)
    (ho : ShouldHandle opts = true) :
    groupHandle (groupDeprecated g opts) p h =
      groupDeprecated (groupHandle g p h) opts := by
  have h1 : groupHandle (groupDeprecated g opts) p h =
      addVRoute (groupDeprecated g opts) p (Deprecated h opts) := by
    simp [groupHandle, groupDeprecated, ho]
  have h2 : groupHandle g p h = addVRoute g p h := by
    simp [groupHandle, hg]
  rw [h1, h2]
  cases hm : assocGet g.routes p with
  | some m =>
    have hm2 : assocGet (groupDeprecated g opts).routes p ≠ none := by
      intro hcon
      rw [groupDeprecated] at hcon
      exact absurd ((assocGet_map_none _ g.routes p).mp hcon) (by simp [hm])
    cases hm3 : assocGet (groupDeprecated g opts).routes p with
    | none => exact absurd hm3 hm2
    | some m2 =>
      rw [addVRoute_noop _ _ _ _ hm3, addVRoute_noop g p h m hm]
  | none =>
    have hnone : assocGet (groupDeprecated g opts).routes p = none := by
      show assocGet
        (g.routes.map
          (fun pr =>
            (pr.1,
             assocSet pr.2 g.version
               (Deprecated ((assocGet pr.2 g.version).getD .nilh) opts)))) p = none
      exact (assocGet_map_none _ g.routes p).mpr hm
    unfold addVRoute
    rw [hnone, hm]
    simp [groupDeprecated, List.map_append, assocGet, assocSet]

/-- Witness for C7 (amended): a fresh "1.0" group with the default
deprecation options — inactive stored options, active argument options —
converges under both orderings. -/
theorem group_deprecated_order_commutes_witness :
    groupHandle (groupDeprecated (NewGroup (gs "1.0")) DefaultDeprecationOptions)
        (gs "/") (.base 0) =
      groupDeprecated (groupHandle (NewGroup (gs "1.0")) (gs "/") (.base 0))
        DefaultDeprecationOptions :=
  group_deprecated_order_commutes (NewGroup (gs "1.0")) (gs "/") (.base 0)
    DefaultDeprecationOptions (by decide) (by decide)

/-- Counterexample for C8: an inactive options value (all three fields
empty or zero) does cause a deprecation header when a handler is wrapped
directly via Deprecated with it — the empty warn message is defaulted
and the wrapper always sets the warn header. -/
theorem deprecated_inactive_counterexample :
    ShouldHandle ⟨[], 0, []⟩ = false
    ∧ HEvent.setHeader (gs "X-API-Warn") DefaultDeprecationOptions.WarnMessage
        ∈ runHandler (Deprecated (.base 0) ⟨[], 0, []⟩) := by
  refine ⟨by decide, by decide⟩

/-- C8 (amended): a DeprecationOptions value is active iff at least one
of its three fields is non-empty/non-zero; an inactive value causes no
wrapping — hence no headers — on the Group.Handle path, while a handler
wrapped directly via Deprecated with an inactive value emits exactly the
defaulted warn header before the wrapped behavior. -/
theorem shouldHandle_active_iff :
    (∀ opts : DeprecationOptions, ShouldHandle opts = true ↔
      (opts.WarnMessage ≠ [] ∨ opts.DeprecationDate ≠ 0 ∨ opts.DeprecationInfo ≠ []))
    ∧ (∀ (g : Group) (p : GoStr) (h : Handler), ShouldHandle g.deprecation = false →
        groupHandle g p h = addVRoute g p h)
    ∧ (∀ (h : Handler) (opts : DeprecationOptions), ShouldHandle opts = false →
        runHandler (Deprecated h opts) =
          .setHeader (gs "X-API-Warn") DefaultDeprecationOptions.WarnMessage
            :: runHandler h) := by
  refine ⟨?_, ?_, ?_⟩
  · intro opts
    simp [ShouldHandle, or_assoc]
  · intro g p h hg
    simp [groupHandle, hg]
  · intro h opts hso
    have hw : opts.WarnMessage = [] := by
      by_contra hcon
      simp [ShouldHandle, hcon] at hso
    have hd : opts.DeprecationDate = 0 := by
      by_contra hcon
      simp [ShouldHandle, hcon] at hso
    have hi : opts.DeprecationInfo = [] := by
      by_contra hcon
      simp [ShouldHandle, hcon] at hso
    simp [Deprecated, runHandler, hw, hd, hi]

/-- Witness for C8 (amended): the default options are active, the zero
options are not; a group with inactive stored options registers the bare
handler; a direct Deprecated wrap of the zero options emits only the
defaulted warn header. -/
theorem shouldHandle_active_iff_witness :
    (ShouldHandle DefaultDeprecationOptions = true ↔
      (DefaultDeprecationOptions.WarnMessage ≠ [] ∨
        DefaultDeprecationOptions.DeprecationDate ≠ 0 ∨
        DefaultDeprecationOptions.DeprecationInfo ≠ []))
    ∧ groupHandle (NewGroup (gs "1.0")) (gs "/") (.base 0) =
        addVRoute (NewGroup (gs "1.0")) (gs "/") (.base 0)
    ∧ runHandler (Deprecated (.base 7) ⟨[], 0, []⟩) =
        .setHeader (gs "X-API-Warn") DefaultDeprecationOptions.WarnMessage
          :: runHandler (.base 7) :=
  ⟨shouldHandle_active_iff.1 DefaultDeprecationOptions,
   shouldHandle_active_iff.2.1 (NewGroup (gs "1.0")) (gs "/") (.base 0) (by decide),
   shouldHandle_active_iff.2.2 (.base 7) ⟨[], 0, []⟩ (by decide)⟩

lemma charIndex_mem {c : Char} {l : GoStr} {k : Nat} (h : charIndex c l = some k) :
    c ∈ l := by
  by_contra hcon
  rw [charIndex_eq_none.mpr hcon] at h
  cases h

lemma acceptExtract_spec (accept : GoStr) (i : Nat)
    (hsi : strIndex accept AcceptHeaderVersionValue = some i) :
    acceptExtract accept = specAcceptValue (accept.drop i) := by
  have hne : ¬ (accept = []) := by
    intro h
    subst h
    simp [strIndex, leadsWith, AcceptHeaderVersionValue, gs] at hsi
  simp only [acceptExtract, hne, if_false, hsi]
  generalize accept.drop i = rem
  cases he : charIndex '=' rem with
  | none =>
    have hnm : '=' ∉ rem := charIndex_eq_none.mp he
    simp [specAcceptValue, hnm]
  | some sv =>
    obtain ⟨hlt, _, hdrop⟩ := charIndex_spec he
    have hnl : ¬ (rem.length < sv + 1) := by omega
    have hmem : '=' ∈ rem := charIndex_mem he
    simp only [hnl, if_false, specAcceptValue, hmem, if_true, hdrop]
    generalize (rem.dropWhile (fun a => !(a == '='))).tail = afterEq
    cases hsp : charIndex ' ' afterEq with
    | some e1 =>
      obtain ⟨_, htake1, _⟩ := charIndex_spec hsp
      have hspm : ' ' ∈ afterEq := charIndex_mem hsp
      simp only [hspm, if_true, htake1]
      by_cases hv : afterEq.takeWhile (fun a => !(a == ' ')) = []
      · simp [hv]
      · simp [hv]
    | none =>
      have hnsp : ' ' ∉ afterEq := charIndex_eq_none.mp hsp
      cases hsc : charIndex ';' afterEq with
      | some e2 =>
        obtain ⟨_, htake2, _⟩ := charIndex_spec hsc
        have hscm : ';' ∈ afterEq := charIndex_mem hsc
        simp only [hnsp, if_false, hscm, if_true, htake2]
        by_cases hv : afterEq.takeWhile (fun a => !(a == ';')) = []
        · simp [hv]
        · simp [hv]
      | none =>
        have hnsc : ';' ∉ afterEq := charIndex_eq_none.mp hsc
        simp only [hnsp, hnsc, if_false, List.take_length]
        by_cases hv : afterEq = []
        · simp [hv]
        · simp [hv]

/-- C4: when GetVersion falls through to the Accept header and the
substring "version" occurs in it at index `i`, the result is exactly the
spec-described extraction applied from that occurrence on — everything
after the "=", up to the first space, else the first semicolon, else the
end, with a missing "=" or an empty value yielding the sentinel — and
the three concrete examples behave as stated. -/
theorem getVersion_accept_extraction :
    (∀ (r : Request) (i : Nat), r.ctxVersion = none → r.acceptVersionHeader = [] →
      strIndex r.acceptHeader AcceptHeaderVersionValue = some i →
      GetVersion r = specAcceptValue (r.acceptHeader.drop i))
    ∧ GetVersion ⟨none, [], gs "application/json; version=2.5"⟩ = gs "2.5"
    ∧ GetVersion ⟨none, [], gs "application/json; version=2.5 ;other=x"⟩ = gs "2.5"
    ∧ GetVersion ⟨none, [], gs "version="⟩ = NotFound := by
  refine ⟨?_, by decide, by decide, by decide⟩
  intro r i hc hv hsi
  have hgv : GetVersion r = acceptExtract r.acceptHeader := by
    simp [GetVersion, hc, hv, ctxString]
  rw [hgv, acceptExtract_spec r.acceptHeader i hsi]

/-- Witness for C4: the general clause applied to a request whose Accept
header holds the "version" token at index 26. -/
theorem getVersion_accept_extraction_witness :
    GetVersion ⟨none, [], gs "application/vnd.api+json; version=2.1"⟩ =
      specAcceptValue ((gs "application/vnd.api+json; version=2.1").drop 26) :=
  getVersion_accept_extraction.1
    ⟨none, [], gs "application/vnd.api+json; version=2.1"⟩ 26 rfl rfl (by decide)

lemma assocGet_assocSet_self {α : Type} (m : List (GoStr × α)) (k : GoStr) (x : α) :
    assocGet (assocSet m k x) k = some x := by
  induction m with
  | nil => simp [assocGet, assocSet]
  | cons kv rest ih =>
    obtain ⟨k0, v0⟩ := kv
    by_cases hk : k0 = k
    · simp [assocGet, assocSet, hk]
    · simp [assocGet, assocSet, hk, ih]

lemma assocGet_assocSet_ne {α : Type} (m : List (GoStr × α)) (k k2 : GoStr) (x : α)
    (h : k ≠ k2) : assocGet (assocSet m k x) k2 = assocGet m k2 := by
  induction m with
  | nil => simp [assocGet, assocSet, h]
  | cons kv rest ih =>
    obtain ⟨k0, v0⟩ := kv
    by_cases hk : k0 = k
    · subst hk
      simp [assocGet, assocSet, h]
    · simp [assocGet, assocSet, hk, ih]

lemma assocSet_self {α : Type} (m : List (GoStr × α)) (k : GoStr) (x : α)
    (h : assocGet m k = some x) : assocSet m k x = m := by
  induction m with
  | nil => simp [assocGet] at h
  | cons kv rest ih =>
    obtain ⟨k0, v0⟩ := kv
    by_cases hk : k0 = k
    · subst hk
      simp [assocGet] at h
      simp [assocSet, h]
    · simp [assocGet, hk] at h
      simp [assocSet, hk, ih h]

lemma length_le_assocSet {α : Type} (m : List (GoStr × α)) (k : GoStr) (x : α) :
    m.length ≤ (assocSet m k x).length := by
  induction m with
  | nil => simp [assocSet]
  | cons kv rest ih =>
    obtain ⟨k0, v0⟩ := kv
    by_cases hk : k0 = k
    · simp [assocSet, hk]
    · simpa [assocSet, hk] using ih

lemma assocSet_length_none {α : Type} (m : List (GoStr × α)) (k : GoStr) (x : α)
    (h : assocGet m k = none) : (assocSet m k x).length = m.length + 1 := by
  induction m with
  | nil => simp [assocSet]
  | cons kv rest ih =>
    obtain ⟨k0, v0⟩ := kv
    by_cases hk : k0 = k
    · simp [assocGet, hk] at h
    · simp [assocGet, hk] at h
      simp [assocSet, hk, ih h]

lemma registerPaths_one_heap (f : Handler) (path : GoStr) (tref : Nat) (hp : Heap)
    (acc : List (GoStr × (List ConstraintsHandler × Handler))) :
    (registerPaths (some f) [(path, tref)] hp acc).1 =
      heapSet hp tref (assocSet (heapGet hp tref) NotFound f) := by
  cases hb : buildConstraints
      (heapGet (heapSet hp tref (assocSet (heapGet hp tref) NotFound f)) tref) with
  | error e => simp [registerPaths, hb]
  | ok m => simp [registerPaths, hb]

/-- C10: RegisterGroups mutates the groups it is given: with two groups
registering the same path, the map referenced by the first group's route
entry — whatever its prior content — receives the second group's label
entry and the NotFound fallback entry in place, the second group's own
map is untouched, the first group's map has observably changed after the
call, and a second RegisterGroups call over the same groups reads the
modified map and leaves the heap as is. -/
theorem registerGroups_aliasing_mutation (v1 v2 p : GoStr) (m1 m2 : GoMap)
    (f : Handler) (hn2 : v2 ≠ NotFound) (hnf : assocGet m1 NotFound = none) :
    (RegisterGroups (some f) [⟨v1, [(p, 0)]⟩, ⟨v2, [(p, 1)]⟩] [m1, m2]).1 =
      [assocSet (assocSet m1 v2 ((assocGet m2 v2).getD .nilh)) NotFound f, m2]
    ∧ (RegisterGroups (some f) [⟨v1, [(p, 0)]⟩, ⟨v2, [(p, 1)]⟩] [m1, m2]).1 ≠
        [m1, m2]
    ∧ (RegisterGroups (some f) [⟨v1, [(p, 0)]⟩, ⟨v2, [(p, 1)]⟩]
        [assocSet (assocSet m1 v2 ((assocGet m2 v2).getD .nilh)) NotFound f, m2]).1 =
      [assocSet (assocSet m1 v2 ((assocGet m2 v2).getD .nilh)) NotFound f, m2] := by
  have hmg : mergeGroups [⟨v1, [(p, 0)]⟩, ⟨v2, [(p, 1)]⟩] [m1, m2] =
      ([assocSet m1 v2 ((assocGet m2 v2).getD .nilh), m2], [(p, 0)]) := by
    simp [mergeGroups, mergeStep, heapGet, heapSet, assocGet, List.getD]
  have h1 : (RegisterGroups (some f) [⟨v1, [(p, 0)]⟩, ⟨v2, [(p, 1)]⟩] [m1, m2]).1 =
      [assocSet (assocSet m1 v2 ((assocGet m2 v2).getD .nilh)) NotFound f, m2] := by
    show (registerPaths (some f)
        (mergeGroups [⟨v1, [(p, 0)]⟩, ⟨v2, [(p, 1)]⟩] [m1, m2]).2
        (mergeGroups [⟨v1, [(p, 0)]⟩, ⟨v2, [(p, 1)]⟩] [m1, m2]).1 []).1 = _
    rw [hmg, registerPaths_one_heap]
    simp [heapGet, heapSet, List.getD]
  have hA : assocGet (assocSet m1 v2 ((assocGet m2 v2).getD .nilh)) NotFound = none := by
    rw [assocGet_assocSet_ne m1 v2 NotFound _ hn2]
    exact hnf
  refine ⟨h1, ?_, ?_⟩
  · rw [h1]
    intro hcon
    have hB : assocSet (assocSet m1 v2 ((assocGet m2 v2).getD .nilh)) NotFound f = m1 := by
      simpa using hcon
    have hlen := assocSet_length_none _ NotFound f hA
    have hle := length_le_assocSet m1 v2 ((assocGet m2 v2).getD .nilh)
    have hcg := congrArg List.length hB
    rw [hlen] at hcg
    omega
  · have hBv2 : assocGet
        (assocSet (assocSet m1 v2 ((assocGet m2 v2).getD .nilh)) NotFound f) v2 =
        some ((assocGet m2 v2).getD .nilh) := by
      rw [assocGet_assocSet_ne _ NotFound v2 f (Ne.symm hn2)]
      exact assocGet_assocSet_self m1 v2 _
    have hBnf : assocGet
        (assocSet (assocSet m1 v2 ((assocGet m2 v2).getD .nilh)) NotFound f) NotFound =
        some f := assocGet_assocSet_self _ NotFound f
    have hmg2 : mergeGroups [⟨v1, [(p, 0)]⟩, ⟨v2, [(p, 1)]⟩]
        [assocSet (assocSet m1 v2 ((assocGet m2 v2).getD .nilh)) NotFound f, m2] =
        ([assocSet (assocSet m1 v2 ((assocGet m2 v2).getD .nilh)) NotFound f, m2],
         [(p, 0)]) := by
      simp [mergeGroups, mergeStep, heapGet, heapSet, assocGet, List.getD,
        assocSet_self _ v2 _ hBv2]
    show (registerPaths (some f)
        (mergeGroups [⟨v1, [(p, 0)]⟩, ⟨v2, [(p, 1)]⟩]
          [assocSet (assocSet m1 v2 ((assocGet m2 v2).getD .nilh)) NotFound f, m2]).2
        (mergeGroups [⟨v1, [(p, 0)]⟩, ⟨v2, [(p, 1)]⟩]
          [assocSet (assocSet m1 v2 ((assocGet m2 v2).getD .nilh)) NotFound f, m2]).1
        []).1 = _
    rw [hmg2, registerPaths_one_heap]
    simp [heapGet, heapSet, List.getD, assocSet_self _ NotFound f hBnf]

/-- Witness for C10: concrete labels "1.0" and "2.0" sharing the path
"/" exhibit the in-place merge into the first group's map. -/
theorem registerGroups_aliasing_mutation_witness :
    (RegisterGroups (some .notFoundDefault)
        [⟨gs "1.0", [(gs "/", 0)]⟩, ⟨gs "2.0", [(gs "/", 1)]⟩]
        [[(gs "1.0", .base 1)], [(gs "2.0", .base 2)]]).1 =
      [assocSet (assocSet [(gs "1.0", .base 1)] (gs "2.0")
          ((assocGet [(gs "2.0", .base 2)] (gs "2.0")).getD .nilh))
         NotFound .notFoundDefault,
       [(gs "2.0", .base 2)]] :=
  (registerGroups_aliasing_mutation (gs "1.0") (gs "2.0") (gs "/")
      [(gs "1.0", .base 1)] [(gs "2.0", .base 2)] .notFoundDefault
      (by decide) (by decide)).1

end Versioning
